import Mathlib

/-!
Verification of the drum-pattern decoding core of `ncstool` (`src/cli.py`).

The Python source is shallowly embedded: byte buffers are `List Nat`
(each element a byte value), byte offsets are `Int` (the `--base` offset
is signed, so computed addresses may be negative), optional field bases
are `Option Nat`, and the fallible extraction loop — which in Python
aborts by raising `IndexError` / `click.UsageError` — is modelled with
`Except`.

One modelling note: the source compares `zero_count / len(seg) < 0.6`
with Python float division.  The embedding uses the exact rational
comparison `5 * zero_count < 3 * len`, which agrees with the IEEE-double
computation for every segment length below about 10^15 (rounding of
division is monotone, and a disagreement would require the exact ratio
to lie within half an ulp of 0.6 without equalling 3/5, forcing a
denominator above 10^15).
-/

namespace Ncstool

/-- `DEFAULT_TRACKS` from `src/cli.py`. -/
def DEFAULT_TRACKS : Nat := 4

/-- `DEFAULT_PATTERNS` from `src/cli.py`. -/
def DEFAULT_PATTERNS : Nat := 8

/-- `DEFAULT_STEPS` from `src/cli.py`. -/
def DEFAULT_STEPS : Nat := 32

/-- `DEFAULT_TRACK_STRIDE` from `src/cli.py`. -/
def DEFAULT_TRACK_STRIDE : Nat := 0x3540

/-- `DEFAULT_PATTERN_STRIDE` from `src/cli.py`. -/
def DEFAULT_PATTERN_STRIDE : Nat := 0x06A8

/-- `DEFAULT_VEL_OFF` from `src/cli.py`. -/
def DEFAULT_VEL_OFF : Nat := 0x0CD74

/-- `DEFAULT_PROB_OFF` from `src/cli.py`. -/
def DEFAULT_PROB_OFF : Nat := 0x0CD94

/-- `DEFAULT_CHOICE_OFF` from `src/cli.py`. -/
def DEFAULT_CHOICE_OFF : Nat := 0x0CDB4

/-- `DEFAULT_MASK_OFF` from `src/cli.py`. -/
def DEFAULT_MASK_OFF : Nat := 0x0CDD4

/-- Entry `vel` of the `_DEFAULT_OFF_DIFFS` dict in `src/cli.py`. -/
def _DEFAULT_OFF_DIFFS_vel : Int := (DEFAULT_VEL_OFF : Int) - (DEFAULT_MASK_OFF : Int)

/-- Entry `prob` of the `_DEFAULT_OFF_DIFFS` dict in `src/cli.py`. -/
def _DEFAULT_OFF_DIFFS_prob : Int := (DEFAULT_PROB_OFF : Int) - (DEFAULT_MASK_OFF : Int)

/-- Entry `choice` of the `_DEFAULT_OFF_DIFFS` dict in `src/cli.py`. -/
def _DEFAULT_OFF_DIFFS_choice : Int := (DEFAULT_CHOICE_OFF : Int) - (DEFAULT_MASK_OFF : Int)

/-- `_idx(track, pattern, step, track_stride, pattern_stride)` from `src/cli.py`:
`track * track_stride + pattern * pattern_stride + step`. -/
def _idx (track pattern step track_stride pattern_stride : Nat) : Nat :=
  track * track_stride + pattern * pattern_stride + step

/-- `_clamp(x, lo, hi)` from `src/cli.py`: `max(lo, min(hi, x))`. -/
def _clamp (x lo hi : Nat) : Nat :=
  max lo (min hi x)

/-- The `levels = "▁▃▅█"` string of `_step_symbol` in `src/cli.py`, as its
character list. -/
def levels : List Char := ['▁', '▃', '▅', '█']

/-- `_step_symbol(velocity, probability)` from `src/cli.py`.  Velocity 0 gives
the silence glyph `"."`; otherwise a bar from `levels` is picked by
`_clamp(velocity * len(levels) // 128, 0, len(levels) - 1)` and, when a
probability is supplied, its decimal rendering is appended. -/
def _step_symbol (velocity : Nat) (probability : Option Nat) : String :=
  if velocity = 0 then "."
  else
    let idx := _clamp (velocity * levels.length / 128) 0 (levels.length - 1)
    let sym := String.mk [levels.getD idx '?']
    match probability with
    | some p => sym ++ toString p
    | none => sym

/-- Intensity rank of the glyphs `_step_symbol` can emit: the silence glyph
is lowest, then the four bars of `levels` in order. -/
def glyphIntensity (s : String) : Nat :=
  if s = "." then 0
  else if s = "▁" then 1
  else if s = "▃" then 2
  else if s = "▅" then 3
  else if s = "█" then 4
  else 0

/-- `seg.count(0)`, `len(seg)` and `max(seg)` comparisons of the inner
`is_mask_candidate(seg)` of `_detect_drum_offsets` in `src/cli.py`.
The float test `zero_count / len(seg) < 0.6` is embedded as the exact
rational comparison `5 * zero_count < 3 * len(seg)` (see module comment). -/
def is_mask_candidate (seg : List Nat) : Bool :=
  if seg.isEmpty then false
  else if 5 * seg.count 0 < 3 * seg.length then false
  else if 0x1F < seg.foldl max 0 then false
  else true

/-- The Python slice `data[off:off+len]` for a non-negative start offset. -/
def segment (data : List Nat) (off len : Nat) : List Nat :=
  (data.drop off).take len

/-- The candidate start offsets of the scan loop
`for off in range(0, len(data) - length, 16)` in `_detect_drum_offsets`:
the multiples of 16 strictly below `n` (`n` being `len(data) - length`,
and `(n + 15) / 16` the number of loop iterations). -/
def scanOffs (n : Nat) : List Nat :=
  List.range' 0 ((n + 15) / 16) 16

/-- The `candidates` logic of `_detect_drum_offsets` in `src/cli.py`,
producing `candidates[0]` (the accepted mask base) when one exists: a
hint that is in bounds and satisfies `is_mask_candidate` is taken first;
otherwise the scan loop accepts the first candidate offset whose segment
satisfies the predicate. -/
def maskCandidate (data : List Nat) (length : Nat) (hint : Option Int) : Option Int :=
  let hintResult : Option Int :=
    match hint with
    | some h =>
      if 0 ≤ h ∧ h + (length : Int) ≤ (data.length : Int) ∧
          is_mask_candidate (segment data h.toNat length) then some h
      else none
    | none => none
  match hintResult with
  | some h => some h
  | none =>
    ((scanOffs (data.length - length)).find?
      (fun off => is_mask_candidate (segment data off length))).map
      (fun off => (off : Int))

/-- The detected offsets dictionary returned by `_detect_drum_offsets`
(keys `velocity`, `probability`, `choice`, `mask`). -/
structure DetectedOffsets where
  velocity : Int
  probability : Int
  choice : Int
  mask : Int
deriving DecidableEq, Repr

/-- `_detect_drum_offsets(data, tracks, patterns, steps, mask_off_hint)` from
`src/cli.py`: locate a mask-array base (hint first, then the 16-byte-stride
scan), derive the other three bases with `_DEFAULT_OFF_DIFFS`, and return
them only if all four segments of `length` bytes lie within the buffer. -/
def _detect_drum_offsets (data : List Nat) (tracks patterns steps : Nat)
    (mask_off_hint : Option Int) : Option DetectedOffsets :=
  let length := tracks * patterns * steps
  match maskCandidate data length mask_off_hint with
  | none => none
  | some mask_off =>
    let vel_off := mask_off + _DEFAULT_OFF_DIFFS_vel
    let prob_off := mask_off + _DEFAULT_OFF_DIFFS_prob
    let choice_off := mask_off + _DEFAULT_OFF_DIFFS_choice
    if [vel_off, prob_off, choice_off, mask_off].all
        (fun off => decide (0 ≤ off) && decide (off + (length : Int) ≤ (data.length : Int)))
    then some ⟨vel_off, prob_off, choice_off, mask_off⟩
    else none

/-- The errors `extract_drum_patterns` in `src/cli.py` can raise: the
`IndexError(f"read past end of buffer at 0x\x7boff:X\x7d")` of `_read_u8`,
whose payload is the offending offset alone, and the
`click.UsageError("Velocity offset must be provided.")` raised when no
velocity base is configured. -/
inductive ExtractErr where
  | readPastEnd (off : Int)
  | usageError
deriving DecidableEq, Repr

/-- `_read_u8(buf, off)` from `src/cli.py`: raise `IndexError` when
`off < 0 or off >= len(buf)`, otherwise return `buf[off]`. -/
def _read_u8 (buf : List Nat) (off : Int) : Except ExtractErr Nat :=
  if off < 0 ∨ (buf.length : Int) ≤ off then .error (.readPastEnd off)
  else .ok (buf.getD off.toNat 0)

/-- One decoded step of `extract_drum_patterns`: the `step_data` dict.
`velocity` is always written; each optional key is present iff its field
base was configured. -/
structure StepRecord where
  velocity : Nat
  probability : Option Nat
  choice : Option Nat
  mask : Option Nat
deriving DecidableEq, Repr

/-- One `{"pattern": p, "steps": [...]}` entry of `extract_drum_patterns`. -/
structure PatternRecord where
  pattern : Nat
  steps : List StepRecord
deriving DecidableEq, Repr

/-- One `{"track": t, "patterns": [...]}` entry of `extract_drum_patterns`. -/
structure TrackRecord where
  track : Nat
  patterns : List PatternRecord
deriving DecidableEq, Repr

/-- The keyword arguments of `extract_drum_patterns` in `src/cli.py`:
`base` is signed, field bases are independently optional, and `track` /
`pattern` are the optional single-track / single-pattern filters. -/
structure DrumArgs where
  base : Int
  vel_off : Option Nat
  prob_off : Option Nat
  choice_off : Option Nat
  mask_off : Option Nat
  track_stride : Nat
  pattern_stride : Nat
  tracks : Nat
  patterns : Nat
  steps : Nat
  track : Option Nat
  pattern : Option Nat
deriving DecidableEq, Repr

/-- The dictionary returned by `extract_drum_patterns`: the `meta` block
(the configuration used, kept for provenance) plus the track list. -/
structure ExtractionResult where
  meta : DrumArgs
  tracks : List TrackRecord
deriving DecidableEq, Repr

/-- `track_range = range(tracks) if track is None else range(track, track + 1)`
from `extract_drum_patterns`. -/
def trackRange (a : DrumArgs) : List Nat :=
  match a.track with
  | none => List.range a.tracks
  | some t => [t]

/-- `pattern_range = range(patterns) if pattern is None else range(pattern, pattern + 1)`
from `extract_drum_patterns`. -/
def patternRange (a : DrumArgs) : List Nat :=
  match a.pattern with
  | none => List.range a.patterns
  | some p => [p]

/-- The per-field read of `extract_drum_patterns`: compute
`field_offset(field_base, index) = base + field_base + index` and fetch the
byte with `_read_u8`, or skip the read when the base is not configured. -/
def readField (data : List Nat) (base : Int) (field_base : Option Nat)
    (index : Nat) : Except ExtractErr (Option Nat) :=
  match field_base with
  | none => .ok none
  | some f =>
    match _read_u8 data (base + (f : Int) + (index : Int)) with
    | .ok b => .ok (some b)
    | .error e => .error e

/-- The body of the innermost loop of `extract_drum_patterns`: build the
`step_data` dict for `(t, p, s)`, reading velocity, probability, choice
and mask in that order.  The `if v_off is not None else 0` fallback of
the velocity read is the `Option.getD 0`. -/
def extractStep (data : List Nat) (a : DrumArgs) (t p s : Nat) :
    Except ExtractErr StepRecord :=
  let offset_idx := _idx t p s a.track_stride a.pattern_stride
  match readField data a.base a.vel_off offset_idx with
  | .error e => .error e
  | .ok velv =>
    match readField data a.base a.prob_off offset_idx with
    | .error e => .error e
    | .ok probv =>
      match readField data a.base a.choice_off offset_idx with
      | .error e => .error e
      | .ok choicev =>
        match readField data a.base a.mask_off offset_idx with
        | .error e => .error e
        | .ok maskv =>
          .ok ⟨velv.getD 0, probv, choicev, maskv⟩

/-- Effectful map over a list in the `Except` monad: the loops of
`extract_drum_patterns`, where a raised exception aborts everything. -/
def mapE {α β : Type} (f : α → Except ExtractErr β) : List α → Except ExtractErr (List β)
  | [] => .ok []
  | x :: xs =>
    match f x with
    | .error e => .error e
    | .ok y =>
      match mapE f xs with
      | .error e => .error e
      | .ok ys => .ok (y :: ys)

/-- `extract_drum_patterns(data, ...)` from `src/cli.py`: check that the
velocity base is configured (else `click.UsageError`), then iterate the
selected tracks, patterns and steps in ascending order, assembling the
nested record; any raised read error aborts the whole call. -/
def extract_drum_patterns (data : List Nat) (a : DrumArgs) :
    Except ExtractErr ExtractionResult :=
  match a.vel_off with
  | none => .error .usageError
  | some _ =>
    match mapE (fun t =>
      match mapE (fun p =>
        match mapE (fun s => extractStep data a t p s) (List.range a.steps) with
        | .error e => .error e
        | .ok sts => .ok (PatternRecord.mk p sts)) (patternRange a) with
      | .error e => .error e
      | .ok pats => .ok (TrackRecord.mk t pats)) (trackRange a) with
    | .error e => .error e
    | .ok trs => .ok ⟨a, trs⟩

/-- The byte of `data` at a (known in-bounds) address. -/
def byteAt (data : List Nat) (off : Int) : Nat :=
  data.getD off.toNat 0

/-- Modelled from the spec (§4.1 AddressModel contract): the address of a
field byte, `base + field_base + track*track_stride + pattern*pattern_stride + step`. -/
def specAddr (a : DrumArgs) (field_base : Nat) (t p s : Nat) : Int :=
  a.base + (field_base : Int) +
    ((t * a.track_stride : Nat) : Int) + ((p * a.pattern_stride : Nat) : Int) + (s : Int)

/-- Modelled from the spec (§3 StepRecord, §8 property 2): the step record
whose every configured field holds exactly the buffer byte at its
`specAddr` address. -/
def specStep (data : List Nat) (a : DrumArgs) (t p s : Nat) : StepRecord where
  velocity := (a.vel_off.map (fun f => byteAt data (specAddr a f t p s))).getD 0
  probability := a.prob_off.map (fun f => byteAt data (specAddr a f t p s))
  choice := a.choice_off.map (fun f => byteAt data (specAddr a f t p s))
  mask := a.mask_off.map (fun f => byteAt data (specAddr a f t p s))

/-- The list of configured field bases of a layout, in source read order. -/
def cfgFields (a : DrumArgs) : List Nat :=
  [a.vel_off, a.prob_off, a.choice_off, a.mask_off].filterMap id

/-- All configured field addresses of the step `(t, p, s)` are inside the
buffer. -/
def AddrOK (data : List Nat) (a : DrumArgs) (t p s : Nat) : Prop :=
  ∀ f ∈ cfgFields a, 0 ≤ specAddr a f t p s ∧ specAddr a f t p s < (data.length : Int)

instance (data : List Nat) (a : DrumArgs) (t p s : Nat) : Decidable (AddrOK data a t p s) :=
  inferInstanceAs (Decidable (∀ f ∈ cfgFields a,
    0 ≤ specAddr a f t p s ∧ specAddr a f t p s < (data.length : Int)))

/-! ## Helper lemmas -/

lemma add_mul_cancel_of_lt {K a b r s : Nat} (hr : r < K) (hs : s < K)
    (h : a * K + r = b * K + s) : a = b ∧ r = s := by
  have hK : 0 < K := lt_of_le_of_lt (Nat.zero_le r) hr
  have ha : (a * K + r) / K = a := by
    rw [mul_comm, Nat.mul_add_div hK, Nat.div_eq_of_lt hr, Nat.add_zero]
  have hb : (b * K + s) / K = b := by
    rw [mul_comm, Nat.mul_add_div hK, Nat.div_eq_of_lt hs, Nat.add_zero]
  have hab : a = b := by rw [← ha, ← hb, h]
  refine ⟨hab, ?_⟩
  subst hab
  exact Nat.add_left_cancel (by omega : a * K + r = a * K + s)

lemma foldl_max_le_iff (l : List Nat) (a n : Nat) :
    l.foldl max a ≤ n ↔ a ≤ n ∧ ∀ b ∈ l, b ≤ n := by
  induction l generalizing a with
  | nil => simp
  | cons x xs ih =>
    rw [List.foldl_cons, ih]
    simp only [List.mem_cons, max_le_iff]
    constructor
    · rintro ⟨⟨h1, h2⟩, h3⟩
      exact ⟨h1, fun b hb => hb.elim (fun e => e ▸ h2) (h3 b)⟩
    · rintro ⟨h1, h2⟩
      exact ⟨⟨h1, h2 x (Or.inl rfl)⟩, fun b hb => h2 b (Or.inr hb)⟩

lemma step_symbol_pos (v : Nat) (hv : v ≠ 0) :
    _step_symbol v none = String.mk [levels.getD (min 3 (v * 4 / 128)) '?'] := by
  unfold _step_symbol
  rw [if_neg hv]
  show String.mk [levels.getD (_clamp (v * levels.length / 128) 0 (levels.length - 1)) '?'] = _
  have : _clamp (v * levels.length / 128) 0 (levels.length - 1) = min 3 (v * 4 / 128) := by
    show max 0 (min (levels.length - 1) (v * levels.length / 128)) = _
    show max 0 (min (4 - 1) (v * 4 / 128)) = _
    rw [Nat.zero_max]
  rw [this]

lemma glyphIntensity_levels : ∀ k, k ≤ 3 →
    glyphIntensity (String.mk [levels.getD k '?']) = k + 1 := by decide

lemma glyphIntensity_step_symbol (v : Nat) :
    glyphIntensity (_step_symbol v none) = if v = 0 then 0 else min 3 (v * 4 / 128) + 1 := by
  by_cases hv : v = 0
  · subst hv; rfl
  · rw [if_neg hv, step_symbol_pos v hv,
      glyphIntensity_levels _ (Nat.min_le_left 3 (v * 4 / 128))]

/-! ## Claim theorems: glyph renderer and mask predicate -/

/-- C9: the glyph renderer's velocity-to-glyph mapping, computed via
`_clamp(velocity*4/128, 0, 3)` inside `_step_symbol`, is monotone
non-decreasing in velocity over `0..255` (with respect to the intensity
order silence < ▁ < ▃ < ▅ < █); velocity 0 maps to the silence glyph and
velocity 127 to the highest-intensity glyph. -/
theorem C9_glyph_monotone :
    (∀ v w : Nat, v ≤ 255 → w ≤ 255 → v ≤ w →
      glyphIntensity (_step_symbol v none) ≤ glyphIntensity (_step_symbol w none)) ∧
    _step_symbol 0 none = "." ∧ _step_symbol 127 none = "█" := by
  refine ⟨?_, rfl, by decide⟩
  intro v w hv255 hw255 hvw
  rw [glyphIntensity_step_symbol, glyphIntensity_step_symbol]
  by_cases hv : v = 0
  · rw [if_pos hv]; exact Nat.zero_le _
  · have hw : w ≠ 0 := fun h => hv (Nat.le_zero.mp (h ▸ hvw))
    rw [if_neg hv, if_neg hw]
    have hdiv : v * 4 / 128 ≤ w * 4 / 128 :=
      Nat.div_le_div_right (Nat.mul_le_mul_right 4 hvw)
    omega

/-- Witness for C9 at concrete velocities 5 and 200. -/
theorem C9_glyph_monotone_witness :
    glyphIntensity (_step_symbol 5 none) ≤ glyphIntensity (_step_symbol 200 none) :=
  C9_glyph_monotone.1 5 200 (by decide) (by decide) (by decide)

/-- C10: a step of velocity 0 renders as the silence glyph alone, whatever
the probability argument: `_step_symbol` returns before the probability
digit could be appended. -/
theorem C10_silence_glyph :
    ∀ probability : Option Nat, _step_symbol 0 probability = "." :=
  fun _ => rfl

set_option maxRecDepth 4000 in
/-- C6: for a non-empty segment, the detector's candidate predicate accepts
exactly when the fraction of zero bytes is at least 0.60 and the maximum
byte is at most 0x1F; a segment with exactly 59% zeros is rejected and one
with exactly 60% zeros (maximum 1) is accepted. -/
theorem C6_mask_predicate :
    (∀ seg : List Nat, seg ≠ [] →
      (is_mask_candidate seg = true ↔
        ((3 : ℚ) / 5 ≤ (seg.count 0 : ℚ) / (seg.length : ℚ) ∧ ∀ b ∈ seg, b ≤ 0x1F))) ∧
    is_mask_candidate (List.replicate 59 0 ++ List.replicate 41 1) = false ∧
    is_mask_candidate (List.replicate 60 0 ++ List.replicate 40 1) = true := by
  refine ⟨?_, by decide, by decide⟩
  intro seg hne
  have hlen : 0 < seg.length := List.length_pos.mpr hne
  have hempty : seg.isEmpty = false := by simp [List.isEmpty_iff, hne]
  have hkey : ((3 : ℚ) / 5 ≤ (seg.count 0 : ℚ) / (seg.length : ℚ)) ↔
      3 * seg.length ≤ 5 * seg.count 0 := by
    rw [div_le_div_iff (by norm_num) (by exact_mod_cast hlen)]
    constructor
    · intro h
      have : 3 * seg.length ≤ seg.count 0 * 5 := by exact_mod_cast h
      omega
    · intro h
      exact_mod_cast (by omega : 3 * seg.length ≤ seg.count 0 * 5)
  have hmax : (seg.foldl max 0 ≤ 0x1F) ↔ ∀ b ∈ seg, b ≤ 0x1F := by
    rw [foldl_max_le_iff]
    simp
  unfold is_mask_candidate
  rw [hempty]
  simp only [Bool.false_eq_true, if_false]
  split_ifs with hr hm
  · simp only [false_iff, not_and]
    intro hc
    rw [hkey] at hc
    omega
  · simp only [false_iff, not_and]
    intro _ hb
    exact absurd (hmax.mpr hb) (by omega)
  · simp only [true_iff]
    exact ⟨hkey.mpr (by omega), hmax.mp (by omega)⟩

/-- Witness for C6 at the concrete singleton segment `[0]`. -/
theorem C6_mask_predicate_witness :
    (([0] : List Nat) ≠ []) ∧
    (is_mask_candidate [0] = true ↔
      ((3 : ℚ) / 5 ≤ (([0] : List Nat).count 0 : ℚ) / (([0] : List Nat).length : ℚ) ∧
        ∀ b ∈ ([0] : List Nat), b ≤ 0x1F)) :=
  ⟨by decide, C6_mask_predicate.1 [0] (by decide)⟩

/-- C3: under `track_stride ≥ patterns*pattern_stride` and
`pattern_stride ≥ steps`, the address map
`(t,p,s) ↦ base + field_base + _idx t p s track_stride pattern_stride`
is injective over in-range triples. -/
theorem C3_address_injective (base : Int)
    (field_base track_stride pattern_stride tracks patterns steps : Nat)
    (h1 : patterns * pattern_stride ≤ track_stride) (h2 : steps ≤ pattern_stride)
    (t1 p1 s1 t2 p2 s2 : Nat)
    (ht1 : t1 < tracks) (hp1 : p1 < patterns) (hs1 : s1 < steps)
    (ht2 : t2 < tracks) (hp2 : p2 < patterns) (hs2 : s2 < steps)
    (heq : base + (field_base : Int) + ((_idx t1 p1 s1 track_stride pattern_stride : Nat) : Int)
         = base + (field_base : Int) + ((_idx t2 p2 s2 track_stride pattern_stride : Nat) : Int)) :
    t1 = t2 ∧ p1 = p2 ∧ s1 = s2 := by
  have hN : _idx t1 p1 s1 track_stride pattern_stride
      = _idx t2 p2 s2 track_stride pattern_stride := by omega
  have hPS : s1 < pattern_stride := lt_of_lt_of_le hs1 h2
  have hPS2 : s2 < pattern_stride := lt_of_lt_of_le hs2 h2
  have inner1 : p1 * pattern_stride + s1 < track_stride :=
    calc p1 * pattern_stride + s1 < p1 * pattern_stride + pattern_stride :=
          Nat.add_lt_add_left hPS _
      _ = (p1 + 1) * pattern_stride := (Nat.succ_mul p1 pattern_stride).symm
      _ ≤ patterns * pattern_stride := Nat.mul_le_mul_right _ hp1
      _ ≤ track_stride := h1
  have inner2 : p2 * pattern_stride + s2 < track_stride :=
    calc p2 * pattern_stride + s2 < p2 * pattern_stride + pattern_stride :=
          Nat.add_lt_add_left hPS2 _
      _ = (p2 + 1) * pattern_stride := (Nat.succ_mul p2 pattern_stride).symm
      _ ≤ patterns * pattern_stride := Nat.mul_le_mul_right _ hp2
      _ ≤ track_stride := h1
  have hN2 : t1 * track_stride + (p1 * pattern_stride + s1)
      = t2 * track_stride + (p2 * pattern_stride + s2) := by
    unfold _idx at hN
    rw [Nat.add_assoc, Nat.add_assoc] at hN
    exact hN
  obtain ⟨hT, hinner⟩ := add_mul_cancel_of_lt inner1 inner2 hN2
  obtain ⟨hP, hS⟩ := add_mul_cancel_of_lt hPS hPS2 hinner
  exact ⟨hT, hP, hS⟩

/-- Witness for C3 at a concrete layout (strides 8/4, dims 2/2/4). -/
theorem C3_address_injective_witness : (0 : Nat) = 0 ∧ (0 : Nat) = 0 ∧ (0 : Nat) = 0 :=
  C3_address_injective 0 0 8 4 2 2 4 (by decide) (by decide) 0 0 0 0 0 0
    (by decide) (by decide) (by decide) (by decide) (by decide) (by decide) (by decide)

/-! ## Claim theorems: offset detection -/

lemma find?_append_first {α : Type} (p : α → Bool) (l1 l2 : List α) (a : α)
    (h1 : ∀ x ∈ l1, p x = false) (ha : p a = true) :
    (l1 ++ a :: l2).find? p = some a := by
  induction l1 with
  | nil => simp [List.find?_cons, ha]
  | cons x xs ih =>
    have hx := h1 x (List.mem_cons_self x xs)
    simp only [List.cons_append, List.find?_cons, hx]
    exact ih (fun y hy => h1 y (List.mem_cons_of_mem x hy))

lemma mem_scanOffs (n off : Nat) : off ∈ scanOffs n ↔ off % 16 = 0 ∧ off < n := by
  unfold scanOffs
  rw [List.mem_range']
  constructor
  · rintro ⟨i, hi, rfl⟩
    constructor
    · omega
    · omega
  · rintro ⟨h16, hlt⟩
    exact ⟨off / 16, by omega, by omega⟩

/-- C4 (detection is all-or-nothing): whenever `_detect_drum_offsets` returns
a result, the three non-mask bases equal the mask base plus the precomputed
`_DEFAULT_OFF_DIFFS` deltas, and all four segments of
`tracks*patterns*steps` bytes lie fully inside the buffer; any out-of-bounds
derived segment yields `none` instead (the only other possible result). -/
theorem C4_detection_all_or_nothing (data : List Nat) (tracks patterns steps : Nat)
    (hint : Option Int) (r : DetectedOffsets)
    (h : _detect_drum_offsets data tracks patterns steps hint = some r) :
    r.velocity = r.mask + _DEFAULT_OFF_DIFFS_vel ∧
    r.probability = r.mask + _DEFAULT_OFF_DIFFS_prob ∧
    r.choice = r.mask + _DEFAULT_OFF_DIFFS_choice ∧
    ∀ off ∈ [r.velocity, r.probability, r.choice, r.mask],
      0 ≤ off ∧ off + ((tracks * patterns * steps : Nat) : Int) ≤ (data.length : Int) := by
  unfold _detect_drum_offsets at h
  dsimp only at h
  cases hm : maskCandidate data (tracks * patterns * steps) hint with
  | none =>
    rw [hm] at h
    exact absurd h (by simp)
  | some m =>
    rw [hm] at h
    dsimp only at h
    split_ifs at h with hb
    · injection h with h
      subst h
      simp only [List.all_cons, List.all_nil, Bool.and_true, Bool.and_eq_true,
        decide_eq_true_eq] at hb
      refine ⟨rfl, rfl, rfl, ?_⟩
      intro off hoff
      simp only [List.mem_cons, List.not_mem_nil, or_false] at hoff
      rcases hoff with rfl | rfl | rfl | rfl
      · exact hb.1
      · exact hb.2.1
      · exact hb.2.2.1
      · exact hb.2.2.2

/-- Witness for C4: a successful detection on a 100-zero buffer with hint 96. -/
theorem C4_detection_all_or_nothing_witness :
    (⟨0, 32, 64, 96⟩ : DetectedOffsets).velocity
        = (⟨0, 32, 64, 96⟩ : DetectedOffsets).mask + _DEFAULT_OFF_DIFFS_vel ∧
    (⟨0, 32, 64, 96⟩ : DetectedOffsets).probability
        = (⟨0, 32, 64, 96⟩ : DetectedOffsets).mask + _DEFAULT_OFF_DIFFS_prob ∧
    (⟨0, 32, 64, 96⟩ : DetectedOffsets).choice
        = (⟨0, 32, 64, 96⟩ : DetectedOffsets).mask + _DEFAULT_OFF_DIFFS_choice ∧
    ∀ off ∈ [(⟨0, 32, 64, 96⟩ : DetectedOffsets).velocity,
        (⟨0, 32, 64, 96⟩ : DetectedOffsets).probability,
        (⟨0, 32, 64, 96⟩ : DetectedOffsets).choice,
        (⟨0, 32, 64, 96⟩ : DetectedOffsets).mask],
      0 ≤ off ∧ off + ((1 * 1 * 1 : Nat) : Int) ≤ ((List.replicate 100 0 : List Nat).length : Int) :=
  C4_detection_all_or_nothing (List.replicate 100 0) 1 1 1 (some 96) ⟨0, 32, 64, 96⟩ (by decide)

/-- The buffer refuting C5 as stated: 17 bytes, a non-candidate byte at
offset 0 and candidate bytes everywhere else.  With `length = 1` the last
multiple of 16 at which a full segment fits is `16 = 17 - 1`, but the scan
loop `range(0, len(data) - length, 16)` never examines it. -/
def c5data : List Nat := (List.range 17).map (fun i => if i = 0 then 255 else 0)

/-- Counterexample to C5 as stated: offset 16 is a multiple of 16, a full
1-byte segment fits there (`16 + 1 ≤ 17`), its segment satisfies the
candidate predicate, and every earlier multiple of 16 fails it — so the
claimed scan (inclusive of `buffer_length - length`) would accept 16 —
yet the code scans only offset 0 and the detection returns `none`. -/
theorem C5_scan_counterexample :
    maskCandidate c5data 1 none = none ∧
    _detect_drum_offsets c5data 1 1 1 none = none ∧
    (16 : Nat) % 16 = 0 ∧ 16 + 1 ≤ c5data.length ∧
    is_mask_candidate (segment c5data 16 1) = true ∧
    is_mask_candidate (segment c5data 0 1) = false := by decide

lemma scan_map_first_match (data : List Nat) (length off : Nat)
    (h16 : off % 16 = 0) (hlt : off < data.length - length)
    (hoff : is_mask_candidate (segment data off length) = true)
    (hbefore : ∀ off2, off2 < off → off2 % 16 = 0 →
      is_mask_candidate (segment data off2 length) = false) :
    (((scanOffs (data.length - length)).find?
      (fun o => is_mask_candidate (segment data o length))).map
      (fun o => (o : Int))) = some (off : Int) := by
  set n := data.length - length with hn
  set m := (n + 15) / 16 with hm
  have hkm : off / 16 < m := by omega
  have hsplit : scanOffs n
      = List.range' 0 (off / 16) 16 ++ off :: List.range' (off + 16) (m - off / 16 - 1) 16 := by
    show List.range' 0 m 16 = _
    rw [show m = (m - off / 16) + off / 16 from by omega]
    rw [← List.range'_append]
    congr 1
    rw [show m - off / 16 = (m - off / 16 - 1) + 1 from by omega, List.range'_succ]
    congr 1
    · omega
    · congr 1 <;> omega
  have hfind : (scanOffs n).find? (fun o => is_mask_candidate (segment data o length))
      = some off := by
    rw [hsplit]
    apply find?_append_first
    · intro x hx
      rw [List.mem_range'] at hx
      obtain ⟨i, hi, rfl⟩ := hx
      exact hbefore _ (by omega) (by omega)
    · exact hoff
  rw [hfind]
  rfl

/-- C5 as amended: whenever no hint is accepted — no hint supplied, or the
supplied hint rejected by the bounds check or the candidate predicate —
the detector examines exactly the multiples of 16 strictly below
`buffer_length - length` (the offset `buffer_length - length` itself is
never examined, even when a full segment fits there) and accepts the first
examined offset whose segment satisfies the candidate predicate. -/
theorem C5_scan_first_match :
    (∀ n off : Nat, off ∈ scanOffs n ↔ off % 16 = 0 ∧ off < n) ∧
    (∀ (data : List Nat) (length off : Nat) (hint : Option Int),
      (∀ h : Int, hint = some h →
        ¬(0 ≤ h ∧ h + (length : Int) ≤ (data.length : Int) ∧
          is_mask_candidate (segment data h.toNat length) = true)) →
      off % 16 = 0 → off < data.length - length →
      is_mask_candidate (segment data off length) = true →
      (∀ off2, off2 < off → off2 % 16 = 0 →
        is_mask_candidate (segment data off2 length) = false) →
      maskCandidate data length hint = some (off : Int)) := by
  refine ⟨fun n off => mem_scanOffs n off, ?_⟩
  intro data length off hint hna h16 hlt hoff hbefore
  have hscan := scan_map_first_match data length off h16 hlt hoff hbefore
  unfold maskCandidate
  cases hint with
  | none => exact hscan
  | some h =>
    dsimp only
    rw [if_neg (hna h rfl)]
    exact hscan

/-- The buffer for the C5 witness: 20 bytes, non-candidate at offset 0,
candidate at offset 16. -/
def c5wdata : List Nat := 255 :: List.replicate 19 0

/-- Witness for C5 as amended: the hint 0 is supplied but rejected by the
candidate predicate, so the scan runs, skips offset 0 and accepts 16. -/
theorem C5_scan_first_match_witness :
    maskCandidate c5wdata 1 (some 0) = some (16 : Int) :=
  C5_scan_first_match.2 c5wdata 1 16 (some 0)
    (fun h hh => by
      obtain rfl : (0 : Int) = h := Option.some.inj hh
      decide)
    (by decide) (by decide) (by decide) (by decide)

/-! ## Helper lemmas for the extraction engine -/

lemma specAddr_idx (a : DrumArgs) (f t p s : Nat) :
    a.base + (f : Int) + ((_idx t p s a.track_stride a.pattern_stride : Nat) : Int)
      = specAddr a f t p s := by
  unfold _idx specAddr
  push_cast
  ring

lemma read_u8_ok {buf : List Nat} {off : Int} (h0 : 0 ≤ off) (h1 : off < (buf.length : Int)) :
    _read_u8 buf off = .ok (byteAt buf off) := by
  unfold _read_u8 byteAt
  rw [if_neg (by omega)]

lemma read_u8_ok_bounds {buf : List Nat} {off : Int} {b : Nat}
    (h : _read_u8 buf off = .ok b) : 0 ≤ off ∧ off < (buf.length : Int) := by
  unfold _read_u8 at h
  split_ifs at h with hc
  exact ⟨by omega, by omega⟩

lemma read_u8_error {buf : List Nat} {off : Int} {e : ExtractErr}
    (h : _read_u8 buf off = .error e) :
    e = .readPastEnd off ∧ (off < 0 ∨ (buf.length : Int) ≤ off) := by
  unfold _read_u8 at h
  split_ifs at h with hc
  injection h with h
  exact ⟨h.symm, hc⟩

lemma readField_some_eq (data : List Nat) (base : Int) (f i : Nat) :
    readField data base (some f) i
      = match _read_u8 data (base + (f : Int) + (i : Int)) with
        | .ok b => .ok (some b)
        | .error e => .error e := rfl

lemma readField_ok_spec {data : List Nat} {a : DrumArgs} {t p s : Nat}
    (fb : Option Nat) (hfb : ∀ f, fb = some f → f ∈ cfgFields a)
    (h : AddrOK data a t p s) :
    readField data a.base fb (_idx t p s a.track_stride a.pattern_stride)
      = .ok (fb.map (fun f => byteAt data (specAddr a f t p s))) := by
  cases fb with
  | none => rfl
  | some f =>
    obtain ⟨h0, h1⟩ := h f (hfb f rfl)
    rw [readField_some_eq, specAddr_idx a f t p s, read_u8_ok h0 h1]
    rfl

lemma readField_ok_isSome {data : List Nat} {base : Int} {fb : Option Nat} {i : Nat}
    {o : Option Nat} (h : readField data base fb i = .ok o) :
    o.isSome = fb.isSome := by
  cases fb with
  | none =>
    injection h with h
    rw [← h]
  | some f =>
    rw [readField_some_eq] at h
    cases hr : _read_u8 data (base + (f : Int) + (i : Int)) with
    | ok b =>
      rw [hr] at h
      injection h with h
      rw [← h]
      rfl
    | error e => rw [hr] at h; exact absurd h (by simp)

lemma readField_ok_bounds {data : List Nat} {base : Int} {f i : Nat} {o : Option Nat}
    (h : readField data base (some f) i = .ok o) :
    0 ≤ base + (f : Int) + (i : Int) ∧ base + (f : Int) + (i : Int) < (data.length : Int) := by
  rw [readField_some_eq] at h
  cases hr : _read_u8 data (base + (f : Int) + (i : Int)) with
  | ok b => exact read_u8_ok_bounds hr
  | error e => rw [hr] at h; exact absurd h (by simp)

lemma readField_error {data : List Nat} {base : Int} {fb : Option Nat} {i : Nat}
    {e : ExtractErr} (h : readField data base fb i = .error e) :
    ∃ off, e = .readPastEnd off ∧ (off < 0 ∨ (data.length : Int) ≤ off) := by
  cases fb with
  | none => exact absurd h (by simp [readField])
  | some f =>
    rw [readField_some_eq] at h
    cases hr : _read_u8 data (base + (f : Int) + (i : Int)) with
    | ok b => rw [hr] at h; exact absurd h (by simp)
    | error e2 =>
      rw [hr] at h
      injection h with h
      obtain ⟨he, hb⟩ := read_u8_error hr
      exact ⟨base + (f : Int) + (i : Int), by rw [← h, he], hb⟩

lemma mapE_ok_of {α β : Type} {f : α → Except ExtractErr β} {g : α → β} :
    ∀ {l : List α}, (∀ x ∈ l, f x = .ok (g x)) → mapE f l = .ok (l.map g)
  | [], _ => rfl
  | x :: xs, h => by
    have ih := mapE_ok_of (fun y hy => h y (List.mem_cons_of_mem x hy))
    unfold mapE
    rw [h x (List.mem_cons_self x xs)]
    dsimp only
    rw [ih]
    rfl

lemma mapE_ok_mem {α β : Type} {f : α → Except ExtractErr β} :
    ∀ {l : List α} {ys : List β}, mapE f l = .ok ys → ∀ y ∈ ys, ∃ x ∈ l, f x = .ok y := by
  intro l
  induction l with
  | nil =>
    intro ys h y hy
    injection h with h
    rw [← h] at hy
    exact absurd hy (List.not_mem_nil y)
  | cons x xs ih =>
    intro ys h y hy
    unfold mapE at h
    cases hf : f x with
    | error e => rw [hf] at h; exact absurd h (by simp)
    | ok y0 =>
      rw [hf] at h
      dsimp only at h
      cases hm : mapE f xs with
      | error e => rw [hm] at h; exact absurd h (by simp)
      | ok ys0 =>
        rw [hm] at h
        dsimp only at h
        injection h with h
        rw [← h] at hy
        rcases List.mem_cons.mp hy with rfl | hy2
        · exact ⟨x, List.mem_cons_self x xs, hf⟩
        · obtain ⟨x2, hx2, hfx2⟩ := ih hm y hy2
          exact ⟨x2, List.mem_cons_of_mem x hx2, hfx2⟩

lemma mapE_ok_forall {α β : Type} {f : α → Except ExtractErr β} :
    ∀ {l : List α} {ys : List β}, mapE f l = .ok ys → ∀ x ∈ l, ∃ y, f x = .ok y := by
  intro l
  induction l with
  | nil =>
    intro ys _ x hx
    exact absurd hx (List.not_mem_nil x)
  | cons x xs ih =>
    intro ys h x2 hx2
    unfold mapE at h
    cases hf : f x with
    | error e => rw [hf] at h; exact absurd h (by simp)
    | ok y0 =>
      rw [hf] at h
      dsimp only at h
      cases hm : mapE f xs with
      | error e => rw [hm] at h; exact absurd h (by simp)
      | ok ys0 =>
        rcases List.mem_cons.mp hx2 with rfl | hx3
        · exact ⟨y0, hf⟩
        · exact ih hm x2 hx3

lemma mapE_error_mem {α β : Type} {f : α → Except ExtractErr β} :
    ∀ {l : List α} {e : ExtractErr}, mapE f l = .error e → ∃ x ∈ l, f x = .error e := by
  intro l
  induction l with
  | nil =>
    intro e h
    exact absurd h (by simp [mapE])
  | cons x xs ih =>
    intro e h
    unfold mapE at h
    cases hf : f x with
    | error e2 =>
      rw [hf] at h
      dsimp only at h
      injection h with h
      exact ⟨x, List.mem_cons_self x xs, by rw [hf, h]⟩
    | ok y0 =>
      rw [hf] at h
      dsimp only at h
      cases hm : mapE f xs with
      | error e2 =>
        rw [hm] at h
        dsimp only at h
        injection h with h
        obtain ⟨x2, hx2, hfx2⟩ := ih (by rw [hm, h])
        exact ⟨x2, List.mem_cons_of_mem x hx2, hfx2⟩
      | ok ys0 => rw [hm] at h; exact absurd h (by simp)

lemma extractStep_ok_spec {data : List Nat} {a : DrumArgs} {t p s : Nat}
    (h : AddrOK data a t p s) :
    extractStep data a t p s = .ok (specStep data a t p s) := by
  unfold extractStep
  dsimp only
  rw [readField_ok_spec a.vel_off (fun f hf => by simp [cfgFields, hf]) h]
  dsimp only
  rw [readField_ok_spec a.prob_off (fun f hf => by simp [cfgFields, hf]) h]
  dsimp only
  rw [readField_ok_spec a.choice_off (fun f hf => by simp [cfgFields, hf]) h]
  dsimp only
  rw [readField_ok_spec a.mask_off (fun f hf => by simp [cfgFields, hf]) h]
  rfl

lemma cfgFields_cases {a : DrumArgs} {f : Nat} (hf : f ∈ cfgFields a) :
    a.vel_off = some f ∨ a.prob_off = some f ∨ a.choice_off = some f ∨ a.mask_off = some f := by
  simp only [cfgFields, List.mem_filterMap, List.mem_cons, List.not_mem_nil, or_false,
    id_eq] at hf
  obtain ⟨o, ho, rfl⟩ := hf
  tauto

lemma extractStep_ok_bounds {data : List Nat} {a : DrumArgs} {t p s : Nat} {st : StepRecord}
    (h : extractStep data a t p s = .ok st) :
    ∀ f ∈ cfgFields a, 0 ≤ specAddr a f t p s ∧ specAddr a f t p s < (data.length : Int) := by
  intro f hf
  unfold extractStep at h
  dsimp only at h
  cases h1 : readField data a.base a.vel_off (_idx t p s a.track_stride a.pattern_stride) with
  | error e => rw [h1] at h; exact absurd h (by simp)
  | ok velv =>
  rw [h1] at h
  dsimp only at h
  cases h2 : readField data a.base a.prob_off (_idx t p s a.track_stride a.pattern_stride) with
  | error e => rw [h2] at h; exact absurd h (by simp)
  | ok probv =>
  rw [h2] at h
  dsimp only at h
  cases h3 : readField data a.base a.choice_off (_idx t p s a.track_stride a.pattern_stride) with
  | error e => rw [h3] at h; exact absurd h (by simp)
  | ok choicev =>
  rw [h3] at h
  dsimp only at h
  cases h4 : readField data a.base a.mask_off (_idx t p s a.track_stride a.pattern_stride) with
  | error e => rw [h4] at h; exact absurd h (by simp)
  | ok maskv =>
  rw [← specAddr_idx a f t p s]
  rcases cfgFields_cases hf with hc | hc | hc | hc
  · rw [hc] at h1; exact readField_ok_bounds h1
  · rw [hc] at h2; exact readField_ok_bounds h2
  · rw [hc] at h3; exact readField_ok_bounds h3
  · rw [hc] at h4; exact readField_ok_bounds h4

lemma extractStep_ok_isSome {data : List Nat} {a : DrumArgs} {t p s : Nat} {st : StepRecord}
    (h : extractStep data a t p s = .ok st) :
    st.probability.isSome = a.prob_off.isSome ∧
    st.choice.isSome = a.choice_off.isSome ∧
    st.mask.isSome = a.mask_off.isSome := by
  unfold extractStep at h
  dsimp only at h
  cases h1 : readField data a.base a.vel_off (_idx t p s a.track_stride a.pattern_stride) with
  | error e => rw [h1] at h; exact absurd h (by simp)
  | ok velv =>
  rw [h1] at h
  dsimp only at h
  cases h2 : readField data a.base a.prob_off (_idx t p s a.track_stride a.pattern_stride) with
  | error e => rw [h2] at h; exact absurd h (by simp)
  | ok probv =>
  rw [h2] at h
  dsimp only at h
  cases h3 : readField data a.base a.choice_off (_idx t p s a.track_stride a.pattern_stride) with
  | error e => rw [h3] at h; exact absurd h (by simp)
  | ok choicev =>
  rw [h3] at h
  dsimp only at h
  cases h4 : readField data a.base a.mask_off (_idx t p s a.track_stride a.pattern_stride) with
  | error e => rw [h4] at h; exact absurd h (by simp)
  | ok maskv =>
  rw [h4] at h
  dsimp only at h
  injection h with h
  rw [← h]
  exact ⟨readField_ok_isSome h2, readField_ok_isSome h3, readField_ok_isSome h4⟩

lemma extractStep_error {data : List Nat} {a : DrumArgs} {t p s : Nat} {e : ExtractErr}
    (h : extractStep data a t p s = .error e) :
    ∃ off, e = .readPastEnd off ∧ (off < 0 ∨ (data.length : Int) ≤ off) := by
  unfold extractStep at h
  dsimp only at h
  cases h1 : readField data a.base a.vel_off (_idx t p s a.track_stride a.pattern_stride) with
  | error e2 =>
    rw [h1] at h
    dsimp only at h
    injection h with h
    exact h ▸ readField_error h1
  | ok velv =>
  rw [h1] at h
  dsimp only at h
  cases h2 : readField data a.base a.prob_off (_idx t p s a.track_stride a.pattern_stride) with
  | error e2 =>
    rw [h2] at h
    dsimp only at h
    injection h with h
    exact h ▸ readField_error h2
  | ok probv =>
  rw [h2] at h
  dsimp only at h
  cases h3 : readField data a.base a.choice_off (_idx t p s a.track_stride a.pattern_stride) with
  | error e2 =>
    rw [h3] at h
    dsimp only at h
    injection h with h
    exact h ▸ readField_error h3
  | ok choicev =>
  rw [h3] at h
  dsimp only at h
  cases h4 : readField data a.base a.mask_off (_idx t p s a.track_stride a.pattern_stride) with
  | error e2 =>
    rw [h4] at h
    dsimp only at h
    injection h with h
    exact h ▸ readField_error h4
  | ok maskv => rw [h4] at h; exact absurd h (by simp)

/-! ## Claim theorems: extraction engine -/

/-- Modelled from the spec (§3, §8 property 2): the extraction result in
which every selected `(t, p, s)` step record holds exactly the buffer
bytes at the `specAddr` addresses of its configured fields. -/
def specResult (data : List Nat) (a : DrumArgs) : ExtractionResult :=
  ⟨a, (trackRange a).map (fun t =>
    ⟨t, (patternRange a).map (fun p =>
      ⟨p, (List.range a.steps).map (fun s => specStep data a t p s)⟩)⟩)⟩

/-- C1 (AddressModel contract and round-trip): when every configured field
address of every selected `(t, p, s)` is inside the buffer, extraction
succeeds and the step record at coordinates `(t, p, s)` holds, for each
configured field, exactly the buffer byte at
`base + field_base + t*track_stride + p*pattern_stride + s`. -/
theorem C1_extraction_roundtrip (data : List Nat) (a : DrumArgs)
    (hv : a.vel_off.isSome = true)
    (hb : ∀ t ∈ trackRange a, ∀ p ∈ patternRange a, ∀ s, s < a.steps → AddrOK data a t p s) :
    ∃ res, extract_drum_patterns data a = .ok res ∧
      ∀ t ∈ trackRange a, ∀ p ∈ patternRange a, ∀ s, s < a.steps →
        ∃ tr ∈ res.tracks, tr.track = t ∧
        ∃ pr ∈ tr.patterns, pr.pattern = p ∧
          pr.steps[s]? = some (specStep data a t p s) := by
  refine ⟨specResult data a, ?_, ?_⟩
  · have hstep : ∀ t ∈ trackRange a, ∀ p ∈ patternRange a,
        mapE (fun s => extractStep data a t p s) (List.range a.steps)
          = .ok ((List.range a.steps).map (fun s => specStep data a t p s)) := by
      intro t ht p hp
      exact mapE_ok_of (fun s hs => extractStep_ok_spec (hb t ht p hp s (List.mem_range.mp hs)))
    have hpat : ∀ t ∈ trackRange a,
        mapE (fun p =>
          match mapE (fun s => extractStep data a t p s) (List.range a.steps) with
          | .error e => .error e
          | .ok sts => .ok (PatternRecord.mk p sts)) (patternRange a)
        = .ok ((patternRange a).map (fun p =>
            ⟨p, (List.range a.steps).map (fun s => specStep data a t p s)⟩)) := by
      intro t ht
      apply mapE_ok_of
      intro p hp
      rw [hstep t ht p hp]
    have htr :
        mapE (fun t =>
          match mapE (fun p =>
            match mapE (fun s => extractStep data a t p s) (List.range a.steps) with
            | .error e => .error e
            | .ok sts => .ok (PatternRecord.mk p sts)) (patternRange a) with
          | .error e => .error e
          | .ok pats => .ok (TrackRecord.mk t pats)) (trackRange a)
        = .ok ((trackRange a).map (fun t =>
            ⟨t, (patternRange a).map (fun p =>
              ⟨p, (List.range a.steps).map (fun s => specStep data a t p s)⟩)⟩)) := by
      apply mapE_ok_of
      intro t ht
      rw [hpat t ht]
    obtain ⟨v, hv2⟩ := Option.isSome_iff_exists.mp hv
    unfold extract_drum_patterns
    rw [hv2]
    dsimp only
    rw [htr]
    rfl
  · intro t ht p hp s hs
    refine ⟨⟨t, (patternRange a).map (fun p =>
        ⟨p, (List.range a.steps).map (fun s => specStep data a t p s)⟩)⟩,
      List.mem_map_of_mem _ ht, rfl,
      ⟨p, (List.range a.steps).map (fun s => specStep data a t p s)⟩,
      List.mem_map_of_mem _ hp, rfl, ?_⟩
    show ((List.range a.steps).map (fun s => specStep data a t p s))[s]?
        = some (specStep data a t p s)
    rw [List.getElem?_map, List.getElem?_range hs]
    rfl

/-- The concrete buffer for the extraction witnesses. -/
def w1data : List Nat := [10, 20, 30, 40]

/-- The concrete layout for the extraction witnesses: one track, one
pattern, one step, all four field bases configured at offsets 0..3. -/
def w1args : DrumArgs :=
  ⟨0, some 0, some 1, some 2, some 3, 4, 4, 1, 1, 1, none, none⟩

/-- Witness for C1 on `w1data` / `w1args`. -/
theorem C1_extraction_roundtrip_witness :
    ∃ res, extract_drum_patterns w1data w1args = .ok res ∧
      ∀ t ∈ trackRange w1args, ∀ p ∈ patternRange w1args, ∀ s, s < w1args.steps →
        ∃ tr ∈ res.tracks, tr.track = t ∧
        ∃ pr ∈ tr.patterns, pr.pattern = p ∧
          pr.steps[s]? = some (specStep w1data w1args t p s) :=
  C1_extraction_roundtrip w1data w1args (by decide) (by decide)

/-- C2 (fail-fast): if any configured field address of any selected
`(t, p, s)` lies outside `[0, buffer_length)`, the entire extraction call
returns an error and no record at all. -/
theorem C2_out_of_bounds_aborts (data : List Nat) (a : DrumArgs)
    (h : ∃ t ∈ trackRange a, ∃ p ∈ patternRange a, ∃ s, s < a.steps ∧
      ∃ f ∈ cfgFields a,
        specAddr a f t p s < 0 ∨ (data.length : Int) ≤ specAddr a f t p s) :
    ∃ e, extract_drum_patterns data a = .error e := by
  cases hres : extract_drum_patterns data a with
  | error e => exact ⟨e, rfl⟩
  | ok res =>
    exfalso
    obtain ⟨t, ht, p, hp, s, hs, f, hf, hoob⟩ := h
    unfold extract_drum_patterns at hres
    cases hv : a.vel_off with
    | none => rw [hv] at hres; exact absurd hres (by simp)
    | some v =>
      rw [hv] at hres
      dsimp only at hres
      cases houter : mapE (fun t =>
          match mapE (fun p =>
            match mapE (fun s => extractStep data a t p s) (List.range a.steps) with
            | .error e => .error e
            | .ok sts => .ok (PatternRecord.mk p sts)) (patternRange a) with
          | .error e => .error e
          | .ok pats => .ok (TrackRecord.mk t pats)) (trackRange a) with
      | error e => rw [houter] at hres; exact absurd hres (by simp)
      | ok trs =>
        obtain ⟨tr, htr⟩ := mapE_ok_forall houter t ht
        cases hmid : mapE (fun p =>
            match mapE (fun s => extractStep data a t p s) (List.range a.steps) with
            | .error e => .error e
            | .ok sts => .ok (PatternRecord.mk p sts)) (patternRange a) with
        | error e => rw [hmid] at htr; exact absurd htr (by simp)
        | ok pats =>
          obtain ⟨pr, hpr⟩ := mapE_ok_forall hmid p hp
          cases hinner : mapE (fun s => extractStep data a t p s) (List.range a.steps) with
          | error e => rw [hinner] at hpr; exact absurd hpr (by simp)
          | ok sts =>
            obtain ⟨st, hst⟩ := mapE_ok_forall hinner s (List.mem_range.mpr hs)
            obtain ⟨hlo, hhi⟩ := extractStep_ok_bounds hst f hf
            omega

/-- Witness for C2: the empty buffer makes the velocity read at offset 0
out of bounds, so the call fails. -/
theorem C2_out_of_bounds_aborts_witness :
    ∃ e, extract_drum_patterns [] w1args = .error e :=
  C2_out_of_bounds_aborts [] w1args
    ⟨0, by decide, 0, by decide, 0, by decide, 0, by decide, by decide⟩

/-- Layout failing at the velocity field of coordinates `(0,0,0)`:
velocity base 5 on a 1-byte buffer. -/
def c7argsA : DrumArgs := ⟨0, some 5, none, none, none, 1, 1, 1, 1, 1, none, none⟩

/-- Layout failing at the probability field of coordinates `(0,0,0)`:
velocity base 0 succeeds, probability base 5 is out of bounds. -/
def c7argsB : DrumArgs := ⟨0, some 0, some 5, none, none, 1, 1, 1, 1, 1, none, none⟩

/-- Layout failing at the velocity field of coordinates `(1,0,0)`: two
tracks with stride 5, so track 1 reads offset 5 on a 1-byte buffer. -/
def c7argsC : DrumArgs := ⟨0, some 0, none, none, none, 5, 1, 2, 1, 1, none, none⟩

/-- Counterexample to C7 as stated: four extractions whose failing reads
differ in field (velocity vs probability), in coordinates (track 0 vs
track 1) and in buffer length (1 vs 3 bytes) all surface the *same*
error value, carrying only the offending offset 5 — the `IndexError`
message of `_read_u8` embeds nothing but the offset, so the error cannot
carry the buffer length, field name, or `(track, pattern, step)`. -/
theorem C7_error_context_counterexample :
    extract_drum_patterns [0] c7argsA = .error (.readPastEnd 5) ∧
    extract_drum_patterns [0] c7argsB = .error (.readPastEnd 5) ∧
    extract_drum_patterns [0] c7argsC = .error (.readPastEnd 5) ∧
    extract_drum_patterns [0, 0, 0] c7argsA = .error (.readPastEnd 5) :=
  ⟨rfl, rfl, rfl, rfl⟩

/-- C7 as amended: a failed extraction surfaces either the configuration
error (velocity base missing) or a read error that carries exactly the
offending out-of-bounds offset — and nothing else: no buffer length, no
field name, no coordinates. -/
theorem C7_error_offset_only (data : List Nat) (a : DrumArgs) (e : ExtractErr)
    (h : extract_drum_patterns data a = .error e) :
    e = .usageError ∨
    ∃ off, e = .readPastEnd off ∧ (off < 0 ∨ (data.length : Int) ≤ off) := by
  unfold extract_drum_patterns at h
  cases hv : a.vel_off with
  | none =>
    rw [hv] at h
    dsimp only at h
    injection h with h
    exact Or.inl h.symm
  | some v =>
    rw [hv] at h
    dsimp only at h
    cases houter : mapE (fun t =>
        match mapE (fun p =>
          match mapE (fun s => extractStep data a t p s) (List.range a.steps) with
          | .error e => .error e
          | .ok sts => .ok (PatternRecord.mk p sts)) (patternRange a) with
        | .error e => .error e
        | .ok pats => .ok (TrackRecord.mk t pats)) (trackRange a) with
    | ok trs => rw [houter] at h; exact absurd h (by simp)
    | error e2 =>
      rw [houter] at h
      dsimp only at h
      injection h with h
      obtain ⟨t, ht, htr⟩ := mapE_error_mem (houter.trans (by rw [h]))
      cases hmid : mapE (fun p =>
          match mapE (fun s => extractStep data a t p s) (List.range a.steps) with
          | .error e => .error e
          | .ok sts => .ok (PatternRecord.mk p sts)) (patternRange a) with
      | ok pats => rw [hmid] at htr; exact absurd htr (by simp)
      | error e3 =>
        rw [hmid] at htr
        dsimp only at htr
        injection htr with htr
        obtain ⟨p, hp, hpr⟩ := mapE_error_mem (hmid.trans (by rw [htr]))
        cases hinner : mapE (fun s => extractStep data a t p s) (List.range a.steps) with
        | ok sts => rw [hinner] at hpr; exact absurd hpr (by simp)
        | error e4 =>
          rw [hinner] at hpr
          dsimp only at hpr
          injection hpr with hpr
          obtain ⟨s, hsmem, hst⟩ := mapE_error_mem (hinner.trans (by rw [hpr]))
          exact Or.inr (extractStep_error hst)

/-- Witness for C7 as amended, at the failing extraction of `c7argsA` on a
1-byte buffer. -/
theorem C7_error_offset_only_witness :
    ExtractErr.readPastEnd 5 = ExtractErr.usageError ∨
    ∃ off, ExtractErr.readPastEnd 5 = ExtractErr.readPastEnd off ∧
      (off < 0 ∨ (([0] : List Nat).length : Int) ≤ off) :=
  C7_error_offset_only [0] c7argsA (.readPastEnd 5) rfl

/-- C8 (optional fields): in every step record of a successful extraction,
`probability`, `choice` and `mask` are present exactly when their bases
are configured in the layout (absence is `none`, a state distinct from
`some 0`); `velocity` is present in every record by construction — it is
a mandatory, non-optional field of `StepRecord`, always written. -/
theorem C8_optional_fields (data : List Nat) (a : DrumArgs) (res : ExtractionResult)
    (h : extract_drum_patterns data a = .ok res) :
    ∀ tr ∈ res.tracks, ∀ pr ∈ tr.patterns, ∀ st ∈ pr.steps,
      st.probability.isSome = a.prob_off.isSome ∧
      st.choice.isSome = a.choice_off.isSome ∧
      st.mask.isSome = a.mask_off.isSome := by
  intro tr htr pr hpr st hst
  unfold extract_drum_patterns at h
  cases hv : a.vel_off with
  | none => rw [hv] at h; exact absurd h (by simp)
  | some v =>
    rw [hv] at h
    dsimp only at h
    cases houter : mapE (fun t =>
        match mapE (fun p =>
          match mapE (fun s => extractStep data a t p s) (List.range a.steps) with
          | .error e => .error e
          | .ok sts => .ok (PatternRecord.mk p sts)) (patternRange a) with
        | .error e => .error e
        | .ok pats => .ok (TrackRecord.mk t pats)) (trackRange a) with
    | error e => rw [houter] at h; exact absurd h (by simp)
    | ok trs =>
      rw [houter] at h
      dsimp only at h
      injection h with h
      rw [← h] at htr
      obtain ⟨t, ht, htrk⟩ := mapE_ok_mem houter tr htr
      cases hmid : mapE (fun p =>
          match mapE (fun s => extractStep data a t p s) (List.range a.steps) with
          | .error e => .error e
          | .ok sts => .ok (PatternRecord.mk p sts)) (patternRange a) with
      | error e => rw [hmid] at htrk; exact absurd htrk (by simp)
      | ok pats =>
        rw [hmid] at htrk
        dsimp only at htrk
        injection htrk with htrk
        rw [← htrk] at hpr
        obtain ⟨p, hp, hprr⟩ := mapE_ok_mem hmid pr hpr
        cases hinner : mapE (fun s => extractStep data a t p s) (List.range a.steps) with
        | error e => rw [hinner] at hprr; exact absurd hprr (by simp)
        | ok sts =>
          rw [hinner] at hprr
          dsimp only at hprr
          injection hprr with hprr
          rw [← hprr] at hst
          obtain ⟨s, hsmem, hstep⟩ := mapE_ok_mem hinner st hst
          exact extractStep_ok_isSome hstep

/-- The concrete result of extracting `w1data` with `w1args`. -/
def w8res : ExtractionResult :=
  ⟨w1args, [⟨0, [⟨0, [⟨10, some 20, some 30, some 40⟩]⟩]⟩]⟩

/-- Witness for C8 at the concrete extraction of `w1data` / `w1args`. -/
theorem C8_optional_fields_witness :
    ((⟨10, some 20, some 30, some 40⟩ : StepRecord).probability.isSome
        = w1args.prob_off.isSome) ∧
    ((⟨10, some 20, some 30, some 40⟩ : StepRecord).choice.isSome
        = w1args.choice_off.isSome) ∧
    ((⟨10, some 20, some 30, some 40⟩ : StepRecord).mask.isSome
        = w1args.mask_off.isSome) :=
  C8_optional_fields w1data w1args w8res rfl
    ⟨0, [⟨0, [⟨10, some 20, some 30, some 40⟩]⟩]⟩ (by decide)
    ⟨0, [⟨10, some 20, some 30, some 40⟩]⟩ (by decide)
    ⟨10, some 20, some 30, some 40⟩ (by decide)

end Ncstool
